import Mathlib

/-!
Verification development for the Crank–Nicolson American-penalty PDE pricer
(`American penalty.cpp`).

Modelling conventions:
* C++ `double` values are modelled by exact rationals `ℚ`; the claims checked
  here are structural (control flow, index ranges, algebraic shape of the
  assembled systems), so exact arithmetic is the appropriate semantics.
* The transcendental library calls `exp` and `pow` (with non-integer exponent)
  are modelled by uninterpreted function parameters `rexp : ℚ → ℚ` and
  `rpow : ℚ → ℚ → ℚ`; every theorem quantifies over them, so the results hold
  for any interpretation of these functions.  `pow(sigma, 2)` (integer
  exponent) is modelled by the ring square.
* A C++ `std::vector<double>` of length `n` is modelled by a function
  `ℕ → ℚ` together with the explicit length `n` where the length drives
  control flow; `lagrange_interpolation`, whose clamping policy depends on
  `x.size()`, is modelled on `List ℚ` directly.
* The C++ cast `int(x)` (truncation toward zero) is modelled by `truncQ`.
-/

namespace CompFin

/-- Truncation of a rational toward zero, the semantics of the C++ cast
`int(double)`. -/
def truncQ (q : ℚ) : ℤ := Int.tdiv q.num (q.den : ℤ)

/-- Model of `theta(mu, X, dt, i) = (1 + mu) * X * exp(mu * i * dt)`
(source line 81); `rexp` interprets `exp`. -/
def theta (mu X dt : ℚ) (rexp : ℚ → ℚ) (i : ℕ) : ℚ :=
  (1 + mu) * X * rexp (mu * i * dt)

/-- Forward-sweep eliminated diagonal of `thomas_solve`: the local copy `b`
with `b[0] = b_[0]` and `b[j] = b_[j] - c[j-1] * a[j] / b[j-1]` (source
lines 94-99). -/
def thomas_bp (a b_ c : ℕ → ℚ) : ℕ → ℚ
  | 0 => b_ 0
  | j + 1 => b_ (j + 1) - c j * a (j + 1) / thomas_bp a b_ c j

/-- Forward-sweep eliminated right-hand side of `thomas_solve`: the in-place
update `d[j] = d[j] - d[j-1] * a[j] / b[j-1]` (source line 100), with the
already-updated `d[j-1]` and the new `b[j-1]`. -/
def thomas_dp (a b_ c d : ℕ → ℚ) : ℕ → ℚ
  | 0 => d 0
  | j + 1 => d (j + 1) - thomas_dp a b_ c d j * a (j + 1) / thomas_bp a b_ c j

/-- Back-substitution of `thomas_solve`, indexed by distance from the top:
`thomas_back … n k` is `temp[n-1-k]`, so `thomas_back … n 0 = d[n-1]/b[n-1]`
and `temp[j] = (d[j] - c[j] * temp[j+1]) / b[j]` (source lines 104-105). -/
def thomas_back (a b_ c d : ℕ → ℚ) (n : ℕ) : ℕ → ℚ
  | 0 => thomas_dp a b_ c d (n - 1) / thomas_bp a b_ c (n - 1)
  | k + 1 =>
      (thomas_dp a b_ c d (n - 1 - (k + 1)) -
        c (n - 1 - (k + 1)) * thomas_back a b_ c d n k) /
        thomas_bp a b_ c (n - 1 - (k + 1))

/-- Solution entry `temp[j]` of `thomas_solve` for a system of size `n`. -/
def thomas_x (a b_ c d : ℕ → ℚ) (n j : ℕ) : ℚ :=
  thomas_back a b_ c d n (n - 1 - j)

/-- Model of `thomas_solve(a, b_, c, d)` (source lines 85-108) on a system of
size `n`.  The first component is the returned solution vector `temp`; the
second component is the caller's vector `d` after the call — `d` is passed by
non-const reference and the forward sweep writes the eliminated right-hand
side into it in place, so entries `0 ≤ j < n` hold `thomas_dp` values. -/
def thomas_solve (n : ℕ) (a b_ c d : ℕ → ℚ) : (ℕ → ℚ) × (ℕ → ℚ) :=
  (fun j => thomas_x a b_ c d n j,
   fun j => if j < n then thomas_dp a b_ c d j else d j)

lemma thomas_x_last (a b_ c d : ℕ → ℚ) (n : ℕ) :
    thomas_x a b_ c d n (n - 1) =
      thomas_dp a b_ c d (n - 1) / thomas_bp a b_ c (n - 1) := by
  have h : n - 1 - (n - 1) = 0 := Nat.sub_self _
  rw [thomas_x, h, thomas_back]

lemma thomas_x_step (a b_ c d : ℕ → ℚ) (n j : ℕ) (h : j + 1 ≤ n - 1) :
    thomas_x a b_ c d n j =
      (thomas_dp a b_ c d j - c j * thomas_x a b_ c d n (j + 1)) /
        thomas_bp a b_ c j := by
  have hm : n - 1 - j = (n - 1 - (j + 1)) + 1 := by omega
  have h2 : n - 1 - ((n - 1 - (j + 1)) + 1) = j := by omega
  rw [thomas_x, hm, thomas_back, h2, thomas_x]

lemma thomas_bpx (a b_ c d : ℕ → ℚ) (n j : ℕ)
    (hpiv : thomas_bp a b_ c j ≠ 0) (h : j + 1 ≤ n - 1) :
    thomas_bp a b_ c j * thomas_x a b_ c d n j +
      c j * thomas_x a b_ c d n (j + 1) = thomas_dp a b_ c d j := by
  rw [thomas_x_step a b_ c d n j h]
  field_simp

lemma thomas_bpx_last (a b_ c d : ℕ → ℚ) (n : ℕ)
    (hpiv : thomas_bp a b_ c (n - 1) ≠ 0) :
    thomas_bp a b_ c (n - 1) * thomas_x a b_ c d n (n - 1) =
      thomas_dp a b_ c d (n - 1) := by
  rw [thomas_x_last]
  field_simp

lemma thomas_row_interior (a b_ c d : ℕ → ℚ) (n j : ℕ)
    (hpiv : ∀ i, i < n → thomas_bp a b_ c i ≠ 0)
    (h1 : 1 ≤ j) (h2 : j + 1 ≤ n - 1) :
    a j * thomas_x a b_ c d n (j - 1) + b_ j * thomas_x a b_ c d n j +
      c j * thomas_x a b_ c d n (j + 1) = d j := by
  obtain ⟨k, rfl⟩ : ∃ k, j = k + 1 := ⟨j - 1, by omega⟩
  have hx0 := thomas_bpx a b_ c d n k (hpiv k (by omega)) (by omega)
  have hx1 := thomas_bpx a b_ c d n (k + 1) (hpiv (k + 1) (by omega)) h2
  have hb : thomas_bp a b_ c (k + 1) =
      b_ (k + 1) - c k * a (k + 1) / thomas_bp a b_ c k := rfl
  have hd : thomas_dp a b_ c d (k + 1) =
      d (k + 1) - thomas_dp a b_ c d k * a (k + 1) / thomas_bp a b_ c k := rfl
  have hk : thomas_bp a b_ c k ≠ 0 := hpiv k (by omega)
  have hinv : thomas_bp a b_ c k * (thomas_bp a b_ c k)⁻¹ = 1 :=
    mul_inv_cancel₀ hk
  have hsimp : k + 1 - 1 = k := by omega
  rw [hsimp]
  linear_combination (a (k + 1) / thomas_bp a b_ c k) * hx0 + hx1 -
    thomas_x a b_ c d n (k + 1) * hb + hd -
    a (k + 1) * thomas_x a b_ c d n k * hinv

lemma thomas_row_last (a b_ c d : ℕ → ℚ) (n : ℕ)
    (hpiv : ∀ i, i < n → thomas_bp a b_ c i ≠ 0) (hn : 2 ≤ n) :
    a (n - 1) * thomas_x a b_ c d n (n - 2) +
      b_ (n - 1) * thomas_x a b_ c d n (n - 1) = d (n - 1) := by
  obtain ⟨k, hk⟩ : ∃ k, n - 1 = k + 1 := ⟨n - 2, by omega⟩
  have hx0 := thomas_bpx a b_ c d n k (hpiv k (by omega)) (by omega)
  have hxl := thomas_bpx_last a b_ c d n (hpiv (n - 1) (by omega))
  rw [hk] at hxl
  have hb : thomas_bp a b_ c (k + 1) =
      b_ (k + 1) - c k * a (k + 1) / thomas_bp a b_ c k := rfl
  have hd : thomas_dp a b_ c d (k + 1) =
      d (k + 1) - thomas_dp a b_ c d k * a (k + 1) / thomas_bp a b_ c k := rfl
  have hkne : thomas_bp a b_ c k ≠ 0 := hpiv k (by omega)
  have hinv : thomas_bp a b_ c k * (thomas_bp a b_ c k)⁻¹ = 1 :=
    mul_inv_cancel₀ hkne
  have h2 : n - 2 = k := by omega
  rw [hk, h2]
  linear_combination (a (k + 1) / thomas_bp a b_ c k) * hx0 + hxl -
    thomas_x a b_ c d n (k + 1) * hb + hd -
    a (k + 1) * thomas_x a b_ c d n k * hinv

lemma thomas_row_first (a b_ c d : ℕ → ℚ) (n : ℕ)
    (hpiv : ∀ i, i < n → thomas_bp a b_ c i ≠ 0) (hn : 2 ≤ n) :
    b_ 0 * thomas_x a b_ c d n 0 + c 0 * thomas_x a b_ c d n 1 = d 0 := by
  have hx0 := thomas_bpx a b_ c d n 0 (hpiv 0 (by omega)) (by omega)
  have hb : thomas_bp a b_ c 0 = b_ 0 := rfl
  have hd : thomas_dp a b_ c d 0 = d 0 := rfl
  rw [hb, hd] at hx0
  exact hx0

/-- C3: for every tridiagonal system whose eliminated pivots are all non-zero
(the diagonal-dominance precondition), the solution `x` returned by
`thomas_solve` satisfies every row equation
`a[j]*x[j-1] + b[j]*x[j] + c[j]*x[j+1] = d[j]`, with the first row omitting
the `a` term and the last row omitting the `c` term.  Over the exact rational
model the equations hold exactly (hence within any numerical tolerance). -/
theorem thomas_solve_satisfies_rows (a b_ c d : ℕ → ℚ) (n : ℕ)
    (hn : 2 ≤ n) (hpiv : ∀ i, i < n → thomas_bp a b_ c i ≠ 0) :
    (b_ 0 * (thomas_solve n a b_ c d).1 0 +
        c 0 * (thomas_solve n a b_ c d).1 1 = d 0) ∧
    (∀ j, 1 ≤ j → j ≤ n - 2 →
        a j * (thomas_solve n a b_ c d).1 (j - 1) +
          b_ j * (thomas_solve n a b_ c d).1 j +
          c j * (thomas_solve n a b_ c d).1 (j + 1) = d j) ∧
    (a (n - 1) * (thomas_solve n a b_ c d).1 (n - 2) +
        b_ (n - 1) * (thomas_solve n a b_ c d).1 (n - 1) = d (n - 1)) := by
  refine ⟨thomas_row_first a b_ c d n hpiv hn, ?_, thomas_row_last a b_ c d n hpiv hn⟩
  intro j hj1 hj2
  exact thomas_row_interior a b_ c d n j hpiv hj1 (by omega)

/-- Concrete inputs for the `thomas_solve` witness: the system
`x0 + x1 = 3, x0 + 2*x1 = 5` written as a tridiagonal system of size 2. -/
def wA : ℕ → ℚ := fun j => if j = 1 then 1 else 0

/-- Diagonal for the `thomas_solve` witness. -/
def wB : ℕ → ℚ := fun j => if j = 0 then 1 else 2

/-- Super-diagonal for the `thomas_solve` witness. -/
def wC : ℕ → ℚ := fun j => if j = 0 then 1 else 0

/-- Right-hand side for the `thomas_solve` witness. -/
def wD : ℕ → ℚ := fun j => if j = 0 then 3 else 5

theorem thomas_solve_satisfies_rows_witness :
    (2 ≤ 2) ∧ (∀ i, i < 2 → thomas_bp wA wB wC i ≠ 0) ∧
    ((wB 0 * (thomas_solve 2 wA wB wC wD).1 0 +
        wC 0 * (thomas_solve 2 wA wB wC wD).1 1 = wD 0) ∧
     (∀ j, 1 ≤ j → j ≤ 2 - 2 →
        wA j * (thomas_solve 2 wA wB wC wD).1 (j - 1) +
          wB j * (thomas_solve 2 wA wB wC wD).1 j +
          wC j * (thomas_solve 2 wA wB wC wD).1 (j + 1) = wD j) ∧
     (wA (2 - 1) * (thomas_solve 2 wA wB wC wD).1 (2 - 2) +
        wB (2 - 1) * (thomas_solve 2 wA wB wC wD).1 (2 - 1) = wD (2 - 1))) := by
  have hpiv : ∀ i, i < 2 → thomas_bp wA wB wC i ≠ 0 := by
    intro i hi
    interval_cases i
    · norm_num [thomas_bp, wA, wB, wC]
    · norm_num [thomas_bp, wA, wB, wC]
  exact ⟨le_refl 2, hpiv, thomas_solve_satisfies_rows wA wB wC wD 2 (le_refl 2) hpiv⟩

/-- C1 (code bug evidence): `thomas_solve` receives `d` by non-const reference
(definition, source line 85) although its forward declaration (source line 17)
declares `d` as `const`; the forward sweep overwrites the caller's `d` in
place (source line 100).  On the concrete system `a = (0,1)`, `b = (1,1)`,
`c = (0,0)`, `d = (1,1)` the caller's `d[1]` holds `0` after the call instead
of the original `1`. -/
theorem thomas_solve_mutates_d :
    (thomas_solve 2 (fun j => if j = 1 then (1 : ℚ) else 0)
        (fun _ => (1 : ℚ)) (fun _ => (0 : ℚ)) (fun _ => (1 : ℚ))).2 1 = 0 ∧
    (fun _ : ℕ => (1 : ℚ)) 1 = 1 := by
  constructor
  · norm_num [thomas_solve, thomas_dp, thomas_bp]
  · norm_num

/-- Stencil window start index `jStar` of `lagrange_interpolation` (source
lines 117-126): `dx = x[1] - x[0]`, the raw index is
`int((x0 - x[0]) / dx) - (n/2 - 1)` for even `n` and
`int((x0 - x[0]) / dx + 0.5) - n/2` for odd `n`, then clamped by
`jStar = max(0, jStar); jStar = min(x.size() - n, jStar)`. -/
def lagrangeJStar (x : List ℚ) (x0 : ℚ) (n : ℕ) : ℤ :=
  min ((x.length : ℤ) - (n : ℤ))
    (max 0
      (if n % 2 = 0 then
        truncQ ((x0 - x.getD 0 0) / (x.getD 1 0 - x.getD 0 0)) - (((n / 2 : ℕ) : ℤ) - 1)
      else
        truncQ ((x0 - x.getD 0 0) / (x.getD 1 0 - x.getD 0 0) + 0.5) - ((n / 2 : ℕ) : ℤ)))

/-- Lagrange evaluation loop of `lagrange_interpolation` (source lines
130-142): for each window point `i`, accumulate
`y[i] * prod over window j ≠ i of (x0 - x[j]) / (x[i] - x[j])`. -/
def lagrange_main (y x : List ℚ) (x0 : ℚ) (n : ℕ) : ℚ :=
  (List.range' (lagrangeJStar x x0 n).toNat n).foldl
    (fun temp i =>
      temp + (List.range' (lagrangeJStar x x0 n).toNat n).foldl
        (fun t j =>
          if j = i then t
          else t * ((x0 - x.getD j 0) / (x.getD i 0 - x.getD j 0)))
        (y.getD i 0))
    0

/-- Model of `lagrange_interpolation(y, x, x0, n)` (source lines 111-145).
The C++ `throw` on `n == 0` is modelled by `none`; the recursive clamp
`if (x.size() < n) return lagrange_interpolation(y, x, x0, x.size())`
(source line 113) is kept as a recursive call, which Lean proves
terminating. -/
def lagrange_interpolation (y x : List ℚ) (x0 : ℚ) (n : ℕ) : Option ℚ :=
  if h : x.length < n then lagrange_interpolation y x x0 x.length
  else if n = 0 then none
  else if n = 1 then some (y.getD (lagrangeJStar x x0 n).toNat 0)
  else some (lagrange_main y x x0 n)
termination_by n
decreasing_by exact h

/-- Container accesses performed by one post-clamp execution of
`lagrange_interpolation`, collected from the source: with effective order
`m = min n x.size()`, the call throws before any access when `m = 0`;
otherwise it always reads `x[0]` and `x[1]` (source line 118), and then reads
`y[jStar]` when `m = 1` (source line 128) or `x[i]` and `y[i]` for every
window index `i` in `[jStar, jStar + m)` (source lines 131-141).  The
proposition holds iff every such access is inside the container bounds. -/
def lagrangeAccessesInBounds (y x : List ℚ) (x0 : ℚ) (n : ℕ) : Prop :=
  if min n x.length = 0 then True
  else
    1 < x.length ∧
      (if min n x.length = 1 then
        (lagrangeJStar x x0 (min n x.length)).toNat < y.length
      else
        (lagrangeJStar x x0 (min n x.length)).toNat + min n x.length ≤ x.length ∧
        (lagrangeJStar x x0 (min n x.length)).toNat + min n x.length ≤ y.length)

lemma lagrangeJStar_nonneg (x : List ℚ) (x0 : ℚ) (n : ℕ) (h2 : n ≤ x.length) :
    0 ≤ lagrangeJStar x x0 n := by
  refine le_min ?_ (le_max_left 0 _)
  have : (n : ℤ) ≤ (x.length : ℤ) := by exact_mod_cast h2
  omega

lemma lagrangeJStar_le (x : List ℚ) (x0 : ℚ) (n : ℕ) :
    lagrangeJStar x x0 n ≤ (x.length : ℤ) - (n : ℤ) :=
  min_le_left _ _

lemma lagrangeJStar_toNat_add_le (x : List ℚ) (x0 : ℚ) (n : ℕ)
    (h2 : n ≤ x.length) :
    (lagrangeJStar x x0 n).toNat + n ≤ x.length := by
  have h0 := lagrangeJStar_nonneg x x0 n h2
  have h1 := lagrangeJStar_le x x0 n
  omega

/-- C7: whenever `1 ≤ n ≤ len(x)`, the clamped window start `jStar` lies in
`[0, len(x) - n]`, so every index `i` with `jStar ≤ i < jStar + n` — every
index read from `x` and `y` during the Lagrange evaluation — is a valid index
of the `x` sequence. -/
theorem lagrangeJStar_window_in_bounds (x : List ℚ) (x0 : ℚ) (n : ℕ)
    (h1 : 1 ≤ n) (h2 : n ≤ x.length) :
    0 ≤ lagrangeJStar x x0 n ∧
    lagrangeJStar x x0 n ≤ (x.length : ℤ) - (n : ℤ) ∧
    ∀ i : ℕ, (lagrangeJStar x x0 n).toNat ≤ i →
      i < (lagrangeJStar x x0 n).toNat + n → i < x.length := by
  refine ⟨lagrangeJStar_nonneg x x0 n h2, lagrangeJStar_le x x0 n, ?_⟩
  intro i hi1 hi2
  have := lagrangeJStar_toNat_add_le x x0 n h2
  omega

theorem lagrangeJStar_window_in_bounds_witness :
    (1 ≤ 2) ∧ (2 ≤ ([0, 1, 2] : List ℚ).length) ∧
    (0 ≤ lagrangeJStar [0, 1, 2] (1/2) 2 ∧
     lagrangeJStar [0, 1, 2] (1/2) 2 ≤ (([0, 1, 2] : List ℚ).length : ℤ) - (2 : ℤ) ∧
     ∀ i : ℕ, (lagrangeJStar ([0, 1, 2] : List ℚ) (1/2) 2).toNat ≤ i →
       i < (lagrangeJStar ([0, 1, 2] : List ℚ) (1/2) 2).toNat + 2 →
       i < ([0, 1, 2] : List ℚ).length) :=
  ⟨by norm_num, by norm_num,
   lagrangeJStar_window_in_bounds [0, 1, 2] (1/2) 2 (by norm_num) (by norm_num)⟩

lemma lagrange_interpolation_noclamp (y x : List ℚ) (x0 : ℚ) (n : ℕ)
    (h : ¬ x.length < n) :
    lagrange_interpolation y x x0 n =
      if n = 0 then none
      else if n = 1 then some (y.getD (lagrangeJStar x x0 n).toNat 0)
      else some (lagrange_main y x x0 n) := by
  rw [lagrange_interpolation, dif_neg h]

lemma lagrange_interpolation_none_iff (y x : List ℚ) (x0 : ℚ) (n : ℕ)
    (h : ¬ x.length < n) :
    lagrange_interpolation y x x0 n = none ↔ n = 0 := by
  rw [lagrange_interpolation_noclamp y x x0 n h]
  by_cases h0 : n = 0
  · simp [h0]
  · by_cases h1 : n = 1 <;> simp [h0, h1]

/-- C6: when the requested order `n` exceeds the sample count, the call is
the same as the call with `n` clamped down to the sample count (one retry);
and the call fails (returns `none`, the model of the C++ `throw`) exactly
when the clamped order `min n len(x)` is zero. -/
theorem lagrange_interpolation_clamp_policy (y x : List ℚ) (x0 : ℚ) (n : ℕ) :
    (x.length < n →
      lagrange_interpolation y x x0 n = lagrange_interpolation y x x0 x.length) ∧
    (lagrange_interpolation y x x0 x.length =
      if x.length = 0 then none
      else if x.length = 1 then
        some (y.getD (lagrangeJStar x x0 x.length).toNat 0)
      else some (lagrange_main y x x0 x.length)) ∧
    (lagrange_interpolation y x x0 n = none ↔ min n x.length = 0) := by
  refine ⟨?_, lagrange_interpolation_noclamp y x x0 x.length (lt_irrefl _), ?_⟩
  · intro h
    rw [lagrange_interpolation, dif_pos h]
  · by_cases h : x.length < n
    · rw [lagrange_interpolation, dif_pos h,
        lagrange_interpolation_none_iff y x x0 x.length (lt_irrefl _)]
      omega
    · rw [lagrange_interpolation_none_iff y x x0 n h]
      omega

theorem lagrange_interpolation_clamp_policy_witness :
    (([0, 1] : List ℚ).length < 3) ∧
    (lagrange_interpolation [5, 7] [0, 1] 0 3 = lagrange_interpolation [5, 7] [0, 1] 0 ([0, 1] : List ℚ).length) ∧
    (lagrange_interpolation [5, 7] [0, 1] 0 3 = none ↔ min 3 ([0, 1] : List ℚ).length = 0) :=
  ⟨by norm_num,
   (lagrange_interpolation_clamp_policy [5, 7] [0, 1] 0 3).1 (by norm_num),
   (lagrange_interpolation_clamp_policy [5, 7] [0, 1] 0 3).2.2⟩

/-- C5: when the clamped order is 1 (and the data is long enough for the
unconditional `x[1]` read to be in bounds, see the companion out-of-bounds
theorem), the interpolation returns exactly one of the input `y`-values:
the sample at the clamped nearest window start index `jStar`. -/
theorem lagrange_interpolation_order_one (y x : List ℚ) (x0 : ℚ) (n : ℕ)
    (hx : 2 ≤ x.length) (hy : y.length = x.length)
    (hcl : min n x.length = 1) :
    ∃ j, j < y.length ∧ j = (lagrangeJStar x x0 n).toNat ∧
      lagrange_interpolation y x x0 n = some (y.getD j 0) := by
  have hn : n = 1 := by omega
  subst hn
  have hnl : ¬ x.length < 1 := by omega
  refine ⟨(lagrangeJStar x x0 1).toNat, ?_, rfl, ?_⟩
  · have := lagrangeJStar_toNat_add_le x x0 1 (by omega)
    omega
  · rw [lagrange_interpolation_noclamp y x x0 1 hnl]
    norm_num

theorem lagrange_interpolation_order_one_witness :
    (2 ≤ ([0, 1, 2] : List ℚ).length) ∧ (([4, 5, 6] : List ℚ).length = ([0, 1, 2] : List ℚ).length) ∧
    (min 1 ([0, 1, 2] : List ℚ).length = 1) ∧
    (∃ j, j < ([4, 5, 6] : List ℚ).length ∧
      j = (lagrangeJStar ([0, 1, 2] : List ℚ) (9/8) 1).toNat ∧
      lagrange_interpolation [4, 5, 6] [0, 1, 2] (9/8) 1 =
        some (([4, 5, 6] : List ℚ).getD j 0)) :=
  ⟨by norm_num, by norm_num, by norm_num,
   lagrange_interpolation_order_one [4, 5, 6] [0, 1, 2] (9/8) 1
     (by norm_num) (by norm_num) (by norm_num)⟩

/-- C10: the spacing read `dx = x[1] - x[0]` happens unconditionally before
the `n == 1` shortcut, so a call whose `x` sequence has length exactly 1
(with any requested order `n ≥ 1`, which the clamp turns into 1) performs an
out-of-bounds access, and all container accesses are in bounds only when `x`
has at least two elements. -/
theorem lagrange_accesses_oob_length_one (y x : List ℚ) (x0 : ℚ) :
    (∀ n, 1 ≤ n → x.length = 1 → ¬ lagrangeAccessesInBounds y x x0 n) ∧
    (∀ n, 1 ≤ min n x.length → y.length = x.length →
      (lagrangeAccessesInBounds y x x0 n ↔ 2 ≤ x.length)) := by
  constructor
  · intro n hn hlen
    have hm : min n x.length = 1 := by omega
    intro hib
    rw [lagrangeAccessesInBounds, if_neg (by omega)] at hib
    omega
  · intro n hm hy
    constructor
    · intro hib
      rw [lagrangeAccessesInBounds, if_neg (by omega)] at hib
      omega
    · intro hlen
      rw [lagrangeAccessesInBounds, if_neg (by omega)]
      have hmle : min n x.length ≤ x.length := min_le_right _ _
      have hwin := lagrangeJStar_toNat_add_le x x0 (min n x.length) hmle
      refine ⟨hlen, ?_⟩
      by_cases h1 : min n x.length = 1
      · rw [if_pos h1]
        omega
      · rw [if_neg h1]
        omega

theorem lagrange_accesses_oob_length_one_witness :
    (1 ≤ 1 ∧ ([3] : List ℚ).length = 1 ∧
      ¬ lagrangeAccessesInBounds ([9] : List ℚ) [3] 0 1) ∧
    (1 ≤ min 2 ([0, 1] : List ℚ).length ∧ ([5, 7] : List ℚ).length = ([0, 1] : List ℚ).length ∧
      (lagrangeAccessesInBounds ([5, 7] : List ℚ) [0, 1] 0 2 ↔ 2 ≤ ([0, 1] : List ℚ).length)) :=
  ⟨⟨by norm_num, by norm_num,
    (lagrange_accesses_oob_length_one [9] [3] 0).1 1 (by norm_num) (by norm_num)⟩,
   ⟨by norm_num, by norm_num,
    (lagrange_accesses_oob_length_one [5, 7] [0, 1] 0).2 2 (by norm_num) (by norm_num)⟩⟩

/-- Immutable configuration of `crank_nicolson` (the parameters declared in
`main`, source lines 32-55, passed positionally to `crank_nicolson`). -/
structure Params where
  T : ℚ
  F : ℚ
  R : ℚ
  r : ℚ
  kappa : ℚ
  mu : ℚ
  S0 : ℚ
  X : ℚ
  C : ℚ
  alpha : ℚ
  beta : ℚ
  sigma : ℚ
  i_max : ℕ
  j_max : ℕ
  S_max : ℚ
  rho : ℚ
  tol : ℚ
  iter_max : ℕ

/-- Spatial step `dS = S_max / j_max` (source line 153). -/
def dS (p : Params) : ℚ := p.S_max / (p.j_max : ℚ)

/-- Time step `dt = T / i_max` (source line 154). -/
def dt (p : Params) : ℚ := p.T / (p.i_max : ℚ)

/-- Grid node price `S[j] = j * dS` (source line 162). -/
def Sgrid (p : Params) (j : ℕ) : ℚ := (j : ℚ) * dS p

/-- Terminal condition `v[j] = max(F, R * S[j])` (source lines 165-168). -/
def vTerminal (p : Params) : ℕ → ℚ := fun j => max p.F (p.R * Sgrid p j)

/-- Sub-diagonal `a` of the layer-`i` system (source lines 180, 188, 198). -/
def a_vec (p : Params) (rexp : ℚ → ℚ) (rpow : ℚ → ℚ → ℚ) (i : ℕ) : ℕ → ℚ :=
  fun j =>
    if j = 0 then 0
    else if j < p.j_max then
      -0.25 * p.sigma ^ 2 * rpow (j : ℚ) (2 * p.beta) * rpow (dS p) (2 * (p.beta - 1)) +
        (p.kappa / (4 * dS p)) * (theta p.mu p.X (dt p) rexp i - (j : ℚ) * dS p)
    else 0

/-- Diagonal `b` of the layer-`i` system (source lines 181, 189, 199). -/
def b_vec (p : Params) (rexp : ℚ → ℚ) (rpow : ℚ → ℚ → ℚ) (i : ℕ) : ℕ → ℚ :=
  fun j =>
    if j = 0 then
      -(1 / dt p) - (p.kappa * theta p.mu p.X (dt p) rexp i / dS p) - (p.r / 2)
    else if j < p.j_max then
      (1 / dt p) + 0.5 * p.sigma ^ 2 * rpow (j : ℚ) (2 * p.beta) * rpow (dS p) (2 * (p.beta - 1)) +
        (p.r / 2)
    else 1

/-- Super-diagonal `c` of the layer-`i` system (source lines 182, 190, 200). -/
def c_vec (p : Params) (rexp : ℚ → ℚ) (rpow : ℚ → ℚ → ℚ) (i : ℕ) : ℕ → ℚ :=
  fun j =>
    if j = 0 then p.kappa * theta p.mu p.X (dt p) rexp i / dS p
    else if j < p.j_max then
      -0.25 * p.sigma ^ 2 * rpow (j : ℚ) (2 * p.beta) * rpow (dS p) (2 * (p.beta - 1)) -
        (p.kappa / (4 * dS p)) * (theta p.mu p.X (dt p) rexp i - (j : ℚ) * dS p)
    else 0

/-- Right-hand side `d` of the layer-`i` system given the later-time value
vector `v` (source lines 183, 191-194, 201; note the boundary row `j = 0`
uses `exp(-i*dt)` without `alpha`, exactly as in the source). -/
def d_vec (p : Params) (rexp : ℚ → ℚ) (rpow : ℚ → ℚ → ℚ) (i : ℕ) (v : ℕ → ℚ) : ℕ → ℚ :=
  fun j =>
    if j = 0 then
      (-(1 / dt p) + (p.r / 2)) * v 0 - p.C * rexp (-((i : ℚ) * dt p))
    else if j < p.j_max then
      (0.25 * p.sigma ^ 2 * rpow (j : ℚ) (2 * p.beta) * rpow (dS p) (2 * (p.beta - 1)) -
          (p.kappa / (4 * dS p)) * (theta p.mu p.X (dt p) rexp i - (j : ℚ) * dS p)) * v (j - 1) +
        ((1 / dt p) - 0.5 * p.sigma ^ 2 * rpow (j : ℚ) (2 * p.beta) * rpow (dS p) (2 * (p.beta - 1)) -
          (p.r / 2)) * v j +
        (0.25 * p.sigma ^ 2 * rpow (j : ℚ) (2 * p.beta) * rpow (dS p) (2 * (p.beta - 1)) +
          (p.kappa / (4 * dS p)) * (theta p.mu p.X (dt p) rexp i - (j : ℚ) * dS p)) * v (j + 1) +
        p.C * rexp (-(p.alpha * (i : ℚ) * dt p))
    else p.R * Sgrid p p.j_max

/-- Body of the penalty loop over interior indices (source lines 212-219):
if the current candidate violates the obstacle at `j`, bump the copied
diagonal and right-hand side; `a_hat` (first component) and `c_hat` (third
component) are never written. -/
def penaltyUpd (p : Params) (b d v : ℕ → ℚ)
    (s : (ℕ → ℚ) × (ℕ → ℚ) × (ℕ → ℚ) × (ℕ → ℚ)) (j : ℕ) :
    (ℕ → ℚ) × (ℕ → ℚ) × (ℕ → ℚ) × (ℕ → ℚ) :=
  if v j < p.R * Sgrid p j then
    (s.1, Function.update s.2.1 j (b j + p.rho), s.2.2.1,
      Function.update s.2.2.2 j (d j + p.rho * (p.R * Sgrid p j)))
  else s

/-- One penalty pass over the copied system `(a_hat, b_hat, c_hat, d_hat)`
(source lines 209-219): start from copies of the base system and apply
`penaltyUpd` for `j = 1 .. j_max - 1`. -/
def applyPenalty (p : Params) (a b c d v : ℕ → ℚ) :
    (ℕ → ℚ) × (ℕ → ℚ) × (ℕ → ℚ) × (ℕ → ℚ) :=
  (List.range' 1 (p.j_max - 1)).foldl (penaltyUpd p b d v) (a, b, c, d)

/-- One penalty iteration (source lines 209-228): penalise the copied
system, solve it with `thomas_solve` on `j_max + 1` rows, and accumulate
`error += (v_new[j] - y[j])^2` for `j = 0 .. j_max - 1` (source line 226
loops with `j < j_max`, so index `j_max` is not included). -/
def penaltyStep (p : Params) (a b c d v : ℕ → ℚ) : (ℕ → ℚ) × ℚ :=
  let s := applyPenalty p a b c d v
  let y := (thomas_solve (p.j_max + 1) s.1 s.2.1 s.2.2.1 s.2.2.2).1
  (y, (List.range p.j_max).foldl (fun e j => e + (v j - y j) ^ 2) 0)

/-- Penalty iteration loop of one time layer (source lines 205-244): run up
to `fuel` passes, returning the first solution whose error is below `tol^2`;
if the budget is exhausted the layer fails (`none`, the model of the C++
`throw` after `penalty_itr >= iter_max`). -/
def penaltyLoop (p : Params) (a b c d : ℕ → ℚ) : ℕ → (ℕ → ℚ) → Option (ℕ → ℚ)
  | 0, _ => none
  | fuel + 1, v =>
    if (penaltyStep p a b c d v).2 < p.tol ^ 2 then some (penaltyStep p a b c d v).1
    else penaltyLoop p a b c d fuel (penaltyStep p a b c d v).1

/-- Candidate vector after `k` penalty iterations starting from `v`. -/
def penaltyIter (p : Params) (a b c d v : ℕ → ℚ) : ℕ → (ℕ → ℚ)
  | 0 => v
  | k + 1 => (penaltyStep p a b c d (penaltyIter p a b c d v k)).1

/-- Error produced by the `k`-th penalty iteration starting from `v`. -/
def penaltyErrAt (p : Params) (a b c d v : ℕ → ℚ) (k : ℕ) : ℚ :=
  (penaltyStep p a b c d (penaltyIter p a b c d v k)).2

/-- One time layer (source lines 171-244): assemble the base system for layer
`i` from the coefficient formulas and run the penalty loop with the layer's
iteration cap. -/
def CNlayer (p : Params) (rexp : ℚ → ℚ) (rpow : ℚ → ℚ → ℚ) (i : ℕ)
    (v : ℕ → ℚ) : Option (ℕ → ℚ) :=
  penaltyLoop p (a_vec p rexp rpow i) (b_vec p rexp rpow i) (c_vec p rexp rpow i)
    (d_vec p rexp rpow i v) p.iter_max v

/-- Backward time march (source lines 171-248): `timeMarch … (k+1) v` runs
layer `i = k` on `v` and, when it converges, continues with the remaining `k`
layers; a failed layer aborts the whole march with `none`. -/
def timeMarch (p : Params) (rexp : ℚ → ℚ) (rpow : ℚ → ℚ → ℚ) :
    ℕ → (ℕ → ℚ) → Option (ℕ → ℚ)
  | 0, v => some v
  | k + 1, v =>
    match CNlayer p rexp rpow k v with
    | none => none
    | some w => timeMarch p rexp rpow k w

/-- Model of `crank_nicolson` (source lines 148-254): march all `i_max`
layers backward from the terminal condition, then interpolate the resulting
value vector at `S0` with order 8 (source line 251).  A convergence failure
propagates as `none` (the C++ `throw` aborts with no partial result). -/
def crank_nicolson (p : Params) (rexp : ℚ → ℚ) (rpow : ℚ → ℚ → ℚ) : Option ℚ :=
  match timeMarch p rexp rpow p.i_max (vTerminal p) with
  | none => none
  | some v =>
    lagrange_interpolation ((List.range (p.j_max + 1)).map v)
      ((List.range (p.j_max + 1)).map (Sgrid p)) p.S0 8

/-- Spec formula (§4.3): deterministic drift/barrier function
`theta(i) = (1 + mu) * X * exp(mu * i * dt)`. -/
def spec_theta (p : Params) (rexp : ℚ → ℚ) (i : ℕ) : ℚ :=
  (1 + p.mu) * p.X * rexp (p.mu * (i : ℚ) * dt p)

/-- Spec formula (§4.3): sub-diagonal contribution
`-0.25*sigma^2*j^(2*beta)*dS^(2*(beta-1)) + (kappa/(4*dS))*(theta(i) - j*dS)`. -/
def spec_sub (p : Params) (rexp : ℚ → ℚ) (rpow : ℚ → ℚ → ℚ) (i j : ℕ) : ℚ :=
  -0.25 * p.sigma ^ 2 * rpow (j : ℚ) (2 * p.beta) * rpow (dS p) (2 * (p.beta - 1)) +
    (p.kappa / (4 * dS p)) * (spec_theta p rexp i - (j : ℚ) * dS p)

/-- Spec formula (§4.3): diagonal contribution
`(1/dt) + 0.5*sigma^2*j^(2*beta)*dS^(2*(beta-1)) + r/2`. -/
def spec_diag (p : Params) (rpow : ℚ → ℚ → ℚ) (j : ℕ) : ℚ :=
  (1 / dt p) + 0.5 * p.sigma ^ 2 * rpow (j : ℚ) (2 * p.beta) * rpow (dS p) (2 * (p.beta - 1)) +
    p.r / 2

/-- Spec formula (§4.3): super-diagonal contribution
`-0.25*sigma^2*j^(2*beta)*dS^(2*(beta-1)) - (kappa/(4*dS))*(theta(i) - j*dS)`. -/
def spec_super (p : Params) (rexp : ℚ → ℚ) (rpow : ℚ → ℚ → ℚ) (i j : ℕ) : ℚ :=
  -0.25 * p.sigma ^ 2 * rpow (j : ℚ) (2 * p.beta) * rpow (dS p) (2 * (p.beta - 1)) -
    (p.kappa / (4 * dS p)) * (spec_theta p rexp i - (j : ℚ) * dS p)

/-- C4: at every interior index `1 ≤ j ≤ j_max - 1` and every layer `i`, the
row coefficients assembled by the code equal the spec formulas: `theta` is
`(1+mu)*X*exp(mu*i*dt)`, the sub/diagonal/super entries are the three spec
contributions, and the right-hand side applies the symmetric coefficients to
the three neighbouring later-time values and adds the coupon term
`C * exp(-alpha*i*dt)`. -/
theorem interior_coefficients_match_spec (p : Params) (rexp : ℚ → ℚ)
    (rpow : ℚ → ℚ → ℚ) (i j : ℕ) (v : ℕ → ℚ) (h1 : 1 ≤ j) (h2 : j ≤ p.j_max - 1) :
    theta p.mu p.X (dt p) rexp i = spec_theta p rexp i ∧
    a_vec p rexp rpow i j = spec_sub p rexp rpow i j ∧
    b_vec p rexp rpow i j = spec_diag p rpow j ∧
    c_vec p rexp rpow i j = spec_super p rexp rpow i j ∧
    d_vec p rexp rpow i v j =
      (-(spec_sub p rexp rpow i j)) * v (j - 1) +
        (2 / dt p - spec_diag p rpow j) * v j +
        (-(spec_super p rexp rpow i j)) * v (j + 1) +
        p.C * rexp (-(p.alpha * (i : ℚ) * dt p)) := by
  have hj0 : j ≠ 0 := by omega
  have hjm : j < p.j_max := by omega
  have hth : theta p.mu p.X (dt p) rexp i = spec_theta p rexp i := by
    rw [theta, spec_theta, mul_assoc]
  refine ⟨hth, ?_, ?_, ?_, ?_⟩
  · rw [a_vec, spec_sub, if_neg hj0, if_pos hjm, hth]
  · rw [b_vec, spec_diag, if_neg hj0, if_pos hjm]
  · rw [c_vec, spec_super, if_neg hj0, if_pos hjm, hth]
  · rw [d_vec, spec_sub, spec_diag, spec_super, if_neg hj0, if_pos hjm, hth]
    ring

/-- Concrete parameter set used by witnesses: all-one market data on a
`j_max = 2`, `i_max = 1` grid. -/
def wParams : Params :=
  { T := 1, F := 1, R := 1, r := 1, kappa := 1, mu := 1, S0 := 1, X := 1,
    C := 1, alpha := 1, beta := 1, sigma := 1, i_max := 1, j_max := 2,
    S_max := 1, rho := 1, tol := 1, iter_max := 1 }

theorem interior_coefficients_match_spec_witness :
    (1 ≤ 1) ∧ (1 ≤ wParams.j_max - 1) ∧
    (theta wParams.mu wParams.X (dt wParams) (fun q => q + 1) 0 =
        spec_theta wParams (fun q => q + 1) 0 ∧
      a_vec wParams (fun q => q + 1) (fun q w => q * w) 0 1 =
        spec_sub wParams (fun q => q + 1) (fun q w => q * w) 0 1) := by
  refine ⟨le_refl 1, by norm_num [wParams], ?_⟩
  have h := interior_coefficients_match_spec wParams (fun q => q + 1)
    (fun q w => q * w) 0 1 (fun _ => 0) (le_refl 1) (by norm_num [wParams])
  exact ⟨h.1, h.2.1⟩

lemma penaltyUpd_fst (p : Params) (b d v : ℕ → ℚ) (s) (j : ℕ) :
    (penaltyUpd p b d v s j).1 = s.1 := by
  rw [penaltyUpd]
  split <;> rfl

lemma penaltyUpd_c (p : Params) (b d v : ℕ → ℚ) (s) (j : ℕ) :
    (penaltyUpd p b d v s j).2.2.1 = s.2.2.1 := by
  rw [penaltyUpd]
  split <;> rfl

lemma penaltyUpd_b (p : Params) (b d v : ℕ → ℚ) (s) (j k : ℕ) :
    (penaltyUpd p b d v s j).2.1 k =
      if k = j ∧ v j < p.R * Sgrid p j then b j + p.rho else s.2.1 k := by
  rw [penaltyUpd]
  by_cases hv : v j < p.R * Sgrid p j
  · rw [if_pos hv]
    by_cases hk : k = j
    · subst hk
      simp [Function.update, hv]
    · simp [Function.update, hk, hv]
  · rw [if_neg hv]
    simp [hv]

lemma penaltyUpd_d (p : Params) (b d v : ℕ → ℚ) (s) (j k : ℕ) :
    (penaltyUpd p b d v s j).2.2.2 k =
      if k = j ∧ v j < p.R * Sgrid p j then d j + p.rho * (p.R * Sgrid p j)
      else s.2.2.2 k := by
  rw [penaltyUpd]
  by_cases hv : v j < p.R * Sgrid p j
  · rw [if_pos hv]
    by_cases hk : k = j
    · subst hk
      simp [Function.update, hv]
    · simp [Function.update, hk, hv]
  · rw [if_neg hv]
    simp [hv]

lemma penaltyFold_fst (p : Params) (b d v : ℕ → ℚ) (l : List ℕ) :
    ∀ s, (l.foldl (penaltyUpd p b d v) s).1 = s.1 := by
  induction l with
  | nil => intro s; rfl
  | cons hd tl ih =>
      intro s
      rw [List.foldl_cons, ih, penaltyUpd_fst]

lemma penaltyFold_c (p : Params) (b d v : ℕ → ℚ) (l : List ℕ) :
    ∀ s, (l.foldl (penaltyUpd p b d v) s).2.2.1 = s.2.2.1 := by
  induction l with
  | nil => intro s; rfl
  | cons hd tl ih =>
      intro s
      rw [List.foldl_cons, ih, penaltyUpd_c]

lemma penaltyFold_b (p : Params) (b d v : ℕ → ℚ) (l : List ℕ) :
    ∀ s k, (l.foldl (penaltyUpd p b d v) s).2.1 k =
      if k ∈ l ∧ v k < p.R * Sgrid p k then b k + p.rho else s.2.1 k := by
  induction l with
  | nil => intro s k; simp
  | cons hd tl ih =>
      intro s k
      rw [List.foldl_cons, ih, penaltyUpd_b]
      by_cases htl : k ∈ tl ∧ v k < p.R * Sgrid p k
      · rw [if_pos htl, if_pos ⟨List.mem_cons_of_mem hd htl.1, htl.2⟩]
      · rw [if_neg htl]
        by_cases hhd : k = hd
        · subst hhd
          by_cases hv : v k < p.R * Sgrid p k
          · rw [if_pos ⟨rfl, hv⟩, if_pos ⟨List.mem_cons_self k tl, hv⟩]
          · rw [if_neg (by tauto), if_neg (by tauto)]
        · have hcons : ¬ (k ∈ hd :: tl ∧ v k < p.R * Sgrid p k) := by
            rw [List.mem_cons]
            rintro ⟨hk | hk, hv⟩
            · exact hhd hk
            · exact htl ⟨hk, hv⟩
          rw [if_neg (by tauto), if_neg hcons]

lemma penaltyFold_d (p : Params) (b d v : ℕ → ℚ) (l : List ℕ) :
    ∀ s k, (l.foldl (penaltyUpd p b d v) s).2.2.2 k =
      if k ∈ l ∧ v k < p.R * Sgrid p k then d k + p.rho * (p.R * Sgrid p k)
      else s.2.2.2 k := by
  induction l with
  | nil => intro s k; simp
  | cons hd tl ih =>
      intro s k
      rw [List.foldl_cons, ih, penaltyUpd_d]
      by_cases htl : k ∈ tl ∧ v k < p.R * Sgrid p k
      · rw [if_pos htl, if_pos ⟨List.mem_cons_of_mem hd htl.1, htl.2⟩]
      · rw [if_neg htl]
        by_cases hhd : k = hd
        · subst hhd
          by_cases hv : v k < p.R * Sgrid p k
          · rw [if_pos ⟨rfl, hv⟩, if_pos ⟨List.mem_cons_self k tl, hv⟩]
          · rw [if_neg (by tauto), if_neg (by tauto)]
        · have hcons : ¬ (k ∈ hd :: tl ∧ v k < p.R * Sgrid p k) := by
            rw [List.mem_cons]
            rintro ⟨hk | hk, hv⟩
            · exact hhd hk
            · exact htl ⟨hk, hv⟩
          rw [if_neg (by tauto), if_neg hcons]

lemma mem_penalty_range (p : Params) (k : ℕ) :
    k ∈ List.range' 1 (p.j_max - 1) ↔ 1 ≤ k ∧ k ≤ p.j_max - 1 := by
  rw [List.mem_range'_1]
  omega

/-- C8: the penalty pass modifies the copied base system exactly at the
interior indices `1 ≤ j ≤ j_max - 1` whose candidate value violates the
obstacle floor `R * S[j]`: there the diagonal becomes `b[j] + rho` and the
right-hand side becomes `d[j] + rho * R * S[j]`; everywhere else the entries
are unchanged, and the sub- and super-diagonals are never modified. -/
theorem penalty_modifies_only_violating_rows (p : Params) (a b c d v : ℕ → ℚ) :
    (applyPenalty p a b c d v).1 = a ∧
    (applyPenalty p a b c d v).2.2.1 = c ∧
    (∀ j, (applyPenalty p a b c d v).2.1 j =
      if 1 ≤ j ∧ j ≤ p.j_max - 1 ∧ v j < p.R * Sgrid p j then b j + p.rho
      else b j) ∧
    (∀ j, (applyPenalty p a b c d v).2.2.2 j =
      if 1 ≤ j ∧ j ≤ p.j_max - 1 ∧ v j < p.R * Sgrid p j then
        d j + p.rho * (p.R * Sgrid p j)
      else d j) := by
  refine ⟨penaltyFold_fst p b d v _ _, penaltyFold_c p b d v _ _, ?_, ?_⟩
  · intro j
    rw [applyPenalty, penaltyFold_b]
    by_cases hm : j ∈ List.range' 1 (p.j_max - 1) ∧ v j < p.R * Sgrid p j
    · rw [if_pos hm, if_pos ⟨((mem_penalty_range p j).mp hm.1).1,
        ((mem_penalty_range p j).mp hm.1).2, hm.2⟩]
    · rw [if_neg hm, if_neg ?_]
      rw [mem_penalty_range p j] at hm
      tauto
  · intro j
    rw [applyPenalty, penaltyFold_d]
    by_cases hm : j ∈ List.range' 1 (p.j_max - 1) ∧ v j < p.R * Sgrid p j
    · rw [if_pos hm, if_pos ⟨((mem_penalty_range p j).mp hm.1).1,
        ((mem_penalty_range p j).mp hm.1).2, hm.2⟩]
    · rw [if_neg hm, if_neg ?_]
      rw [mem_penalty_range p j] at hm
      tauto

lemma penaltyIter_shift (p : Params) (a b c d v : ℕ → ℚ) (k : ℕ) :
    penaltyIter p a b c d v (k + 1) =
      penaltyIter p a b c d (penaltyStep p a b c d v).1 k := by
  induction k with
  | zero => rfl
  | succ k ih =>
      show (penaltyStep p a b c d (penaltyIter p a b c d v (k + 1))).1 = _
      rw [ih]
      rfl

lemma penaltyErrAt_shift (p : Params) (a b c d v : ℕ → ℚ) (k : ℕ) :
    penaltyErrAt p a b c d v (k + 1) =
      penaltyErrAt p a b c d (penaltyStep p a b c d v).1 k := by
  rw [penaltyErrAt, penaltyErrAt, penaltyIter_shift]

lemma penaltyLoop_none_iff (p : Params) (a b c d : ℕ → ℚ) :
    ∀ (fuel : ℕ) (v : ℕ → ℚ), penaltyLoop p a b c d fuel v = none ↔
      ∀ k, k < fuel → p.tol ^ 2 ≤ penaltyErrAt p a b c d v k := by
  intro fuel
  induction fuel with
  | zero => intro v; simp [penaltyLoop]
  | succ fuel ih =>
      intro v
      rw [penaltyLoop]
      by_cases h : (penaltyStep p a b c d v).2 < p.tol ^ 2
      · rw [if_pos h]
        constructor
        · intro hc
          simp at hc
        · intro hall
          exact absurd (hall 0 (Nat.succ_pos _)) (not_le.mpr h)
      · rw [if_neg h, ih]
        constructor
        · intro hall k hk
          cases k with
          | zero => exact not_lt.mp h
          | succ k =>
              rw [penaltyErrAt_shift]
              exact hall k (by omega)
        · intro hall k hk
          have hs := hall (k + 1) (by omega)
          rw [penaltyErrAt_shift] at hs
          exact hs

lemma CNlayer_none (p : Params) (rexp : ℚ → ℚ) (rpow : ℚ → ℚ → ℚ) (i : ℕ)
    (v : ℕ → ℚ) (h : p.iter_max = 0) : CNlayer p rexp rpow i v = none := by
  rw [CNlayer, h]
  rfl

/-- C9: a time layer whose penalty iterations all keep the squared error at
or above `tolerance^2` exhausts its cap `iter_max` and fails (`none`, the
model of the fatal `throw`, with no partial result); in particular with
`iter_max = 0` (and at least one time layer) the whole pricing computation
returns `none` at the first layer processed. -/
theorem convergence_failure_aborts (p : Params) (rexp : ℚ → ℚ)
    (rpow : ℚ → ℚ → ℚ) :
    (∀ a b c d v, (∀ k, k < p.iter_max → p.tol ^ 2 ≤ penaltyErrAt p a b c d v k) →
      penaltyLoop p a b c d p.iter_max v = none) ∧
    (p.iter_max = 0 → 1 ≤ p.i_max → crank_nicolson p rexp rpow = none) := by
  constructor
  · intro a b c d v hall
    exact (penaltyLoop_none_iff p a b c d p.iter_max v).mpr hall
  · intro h0 hi
    obtain ⟨m, hm⟩ : ∃ m, p.i_max = m + 1 := ⟨p.i_max - 1, by omega⟩
    rw [crank_nicolson, hm, timeMarch, CNlayer_none p rexp rpow m (vTerminal p) h0]

/-- Parameter set with a zero iteration cap, for the convergence-failure
witness. -/
def wParams0 : Params := { wParams with iter_max := 0 }

theorem convergence_failure_aborts_witness :
    (wParams0.iter_max = 0) ∧ (1 ≤ wParams0.i_max) ∧
    penaltyLoop wParams0 (fun _ => 0) (fun _ => 0) (fun _ => 0) (fun _ => 0)
      wParams0.iter_max (fun _ => 0) = none ∧
    crank_nicolson wParams0 (fun _ => 1) (fun _ _ => 1) = none := by
  have h0 : wParams0.iter_max = 0 := rfl
  have hi : (1 : ℕ) ≤ wParams0.i_max := by norm_num [wParams0, wParams]
  have hc := convergence_failure_aborts wParams0 (fun _ => 1) (fun _ _ => 1)
  exact ⟨h0, hi,
    hc.1 _ _ _ _ _ (fun k hk => absurd hk (by rw [h0]; omega)), hc.2 h0 hi⟩

lemma foldl_add_sq_eq_sum (f : ℕ → ℚ) :
    ∀ (n : ℕ) (e0 : ℚ),
      (List.range n).foldl (fun e j => e + f j) e0 = e0 + ∑ j in Finset.range n, f j := by
  intro n
  induction n with
  | zero => intro e0; simp
  | succ n ih =>
      intro e0
      rw [List.range_succ, List.foldl_append, ih, Finset.sum_range_succ]
      simp
      ring

lemma penaltyStep_snd_eq_sum (p : Params) (a b c d v : ℕ → ℚ) :
    (penaltyStep p a b c d v).2 =
      ∑ j in Finset.range p.j_max, (v j - (penaltyStep p a b c d v).1 j) ^ 2 := by
  have h2 : (penaltyStep p a b c d v).2 =
      (List.range p.j_max).foldl
        (fun e j => e + (v j - (penaltyStep p a b c d v).1 j) ^ 2) 0 := rfl
  rw [h2, foldl_add_sq_eq_sum (fun j => (v j - (penaltyStep p a b c d v).1 j) ^ 2),
    zero_add]

/-- C2 (amended): the convergence measure of a penalty iteration equals the
sum of squared differences between the new Thomas solution and the previous
candidate over `j = 0 .. j_max - 1` (the top boundary index `j_max` is
excluded, source line 226), and the iteration converges — returns the new
solution — exactly when that sum is strictly below `tolerance^2`. -/
theorem penalty_error_sum_amended (p : Params) (a b c d v : ℕ → ℚ) :
    (penaltyStep p a b c d v).2 =
      ∑ j in Finset.range p.j_max, (v j - (penaltyStep p a b c d v).1 j) ^ 2 ∧
    ∀ fuel, penaltyLoop p a b c d (fuel + 1) v =
      if (penaltyStep p a b c d v).2 < p.tol ^ 2 then some (penaltyStep p a b c d v).1
      else penaltyLoop p a b c d fuel (penaltyStep p a b c d v).1 := by
  exact ⟨penaltyStep_snd_eq_sum p a b c d v, fun fuel => rfl⟩

/-- Parameter set for the error-sum counterexample: one time layer, two grid
nodes (`j_max = 1`), face value 50 far above the top grid price 2, so the
solver pins `y[j_max] = 2` while the candidate holds 50 there. -/
def cexParams : Params :=
  { T := 1, F := 50, R := 1, r := 0, kappa := 0, mu := 0, S0 := 1, X := 1,
    C := 0, alpha := 1, beta := 1, sigma := 1, i_max := 1, j_max := 1,
    S_max := 2, rho := 7, tol := 1, iter_max := 5 }

/-- Sub-diagonal of the counterexample layer `i = 0`. -/
def cexA : ℕ → ℚ := a_vec cexParams (fun _ => 1) (fun _ _ => 1) 0

/-- Diagonal of the counterexample layer `i = 0`. -/
def cexB : ℕ → ℚ := b_vec cexParams (fun _ => 1) (fun _ _ => 1) 0

/-- Super-diagonal of the counterexample layer `i = 0`. -/
def cexC : ℕ → ℚ := c_vec cexParams (fun _ => 1) (fun _ _ => 1) 0

/-- Right-hand side of the counterexample layer `i = 0`. -/
def cexD : ℕ → ℚ := d_vec cexParams (fun _ => 1) (fun _ _ => 1) 0 (vTerminal cexParams)

/-- First penalty iteration of the counterexample layer. -/
def cexStep : (ℕ → ℚ) × ℚ :=
  penaltyStep cexParams cexA cexB cexC cexD (vTerminal cexParams)

/-- C2 (counterexample): in the first penalty iteration of the first time
layer under `cexParams`, the code's convergence measure is `0` (it sums only
`j = 0 .. j_max - 1`), while the sum over every grid index `0 .. j_max`
claimed by the spec is `2304`; the code converges (`0 < tol^2 = 1`) although
the claimed measure would not (`2304 ≥ 1`). -/
theorem penalty_error_sum_counterexample :
    cexStep.2 ≠
      ∑ j in Finset.range (cexParams.j_max + 1),
        (vTerminal cexParams j - cexStep.1 j) ^ 2 ∧
    cexStep.2 < cexParams.tol ^ 2 ∧
    ¬ (∑ j in Finset.range (cexParams.j_max + 1),
        (vTerminal cexParams j - cexStep.1 j) ^ 2 < cexParams.tol ^ 2) := by
  have hv0 : vTerminal cexParams 0 = 50 := by
    norm_num [vTerminal, Sgrid, dS, cexParams, max_def]
  have hv1 : vTerminal cexParams 1 = 50 := by
    norm_num [vTerminal, Sgrid, dS, cexParams, max_def]
  have hy0 : cexStep.1 0 = 50 := by
    norm_num [cexStep, penaltyStep, applyPenalty, cexParams, thomas_solve,
      thomas_x, thomas_back, thomas_dp, thomas_bp, cexA, cexB, cexC, cexD,
      a_vec, b_vec, c_vec, d_vec, theta, dt, dS, Sgrid, vTerminal, max_def,
      List.range']
  have hy1 : cexStep.1 1 = 2 := by
    norm_num [cexStep, penaltyStep, applyPenalty, cexParams, thomas_solve,
      thomas_x, thomas_back, thomas_dp, thomas_bp, cexA, cexB, cexC, cexD,
      a_vec, b_vec, c_vec, d_vec, theta, dt, dS, Sgrid, vTerminal, max_def,
      List.range']
  have herr : cexStep.2 = 0 := by
    have h2 : cexStep.2 =
        (List.range cexParams.j_max).foldl
          (fun e j => e + (vTerminal cexParams j - cexStep.1 j) ^ 2) 0 := rfl
    have hjm : cexParams.j_max = 1 := rfl
    have hr : List.range 1 = [0] := rfl
    rw [h2, hjm, hr, List.foldl_cons, List.foldl_nil, hv0, hy0]
    norm_num
  have hsum : ∑ j in Finset.range (cexParams.j_max + 1),
      (vTerminal cexParams j - cexStep.1 j) ^ 2 = 2304 := by
    have hjm : cexParams.j_max = 1 := rfl
    rw [hjm, Finset.sum_range_succ, Finset.sum_range_one, hv0, hv1, hy0, hy1]
    norm_num
  refine ⟨?_, ?_, ?_⟩
  · rw [herr, hsum]
    norm_num
  · rw [herr]
    norm_num [cexParams]
  · rw [hsum]
    norm_num [cexParams]

end CompFin
